import Mathlib

/-!
# Verification of the sniping pipeline against its specification

Shallow embedding of the pipeline's core functions (signal scorer,
fingerprint matcher, bonding-curve launch decoder, AMM-initPool decoder,
mint validator, backoff runner, websocket dedup map, tag builder and the
snipe executor's buy-instruction assembly), together with theorems settling
the specification's claims about them.

JavaScript numbers that only ever hold small decimal constants (weights,
confidences, thresholds) are embedded as rationals; byte buffers as
`List Nat` with bytes below 256; fallible operations as `Option`/`Except`.
-/

namespace Snipe

/-! ## String utilities (JS `toLowerCase`, `includes`, `trim`, `endsWith`) -/

/-- ASCII lower-casing of one character, as JS `toLowerCase` acts on the
ASCII range (all strings in the embedded code are ASCII). -/
def lowerChar (c : Char) : Char := c.toLower

/-- Lower-case a string character-wise. -/
def toLowerStr (s : String) : String := String.mk (s.data.map lowerChar)

/-- `headMatches needle hay` holds when `needle` occurs at the start of `hay`. -/
def headMatches : List Char → List Char → Bool
  | [], _ => true
  | _ :: _, [] => false
  | a :: as, b :: bs => a == b && headMatches as bs

/-- `hasSub needle hay`: `needle` occurs contiguously somewhere in `hay`
(JS `String.prototype.includes`; the empty needle is found everywhere). -/
def hasSub (needle : List Char) : List Char → Bool
  | [] => needle.isEmpty
  | c :: rest => headMatches needle (c :: rest) || hasSub needle rest

/-- JS `hay.includes(needle)` on strings. -/
def strHasSub (needle hay : String) : Bool := hasSub needle.data hay.data

/-- Index of the first occurrence of `needle` in `hay`, if any. -/
def findSubIdx (needle : List Char) : List Char → Option Nat
  | [] => if needle.isEmpty then some 0 else none
  | c :: rest =>
    if headMatches needle (c :: rest) then some 0
    else (findSubIdx needle rest).map (· + 1)

/-- JS `String.prototype.trim` restricted to ASCII whitespace. -/
def trimChars (cs : List Char) : List Char :=
  ((cs.dropWhile Char.isWhitespace).reverse.dropWhile Char.isWhitespace).reverse

/-- `endsWithStr suffix s`: JS `s.endsWith(suffix)`. -/
def endsWithStr (sfx s : String) : Bool :=
  headMatches sfx.data.reverse s.data.reverse

/-! ## Hex and little-endian 64-bit integers (`Buffer` arithmetic) -/

/-- Value of one hex digit. -/
def hexVal (c : Char) : Nat :=
  if '0' ≤ c ∧ c ≤ '9' then c.toNat - '0'.toNat
  else if 'a' ≤ c ∧ c ≤ 'f' then c.toNat - 'a'.toNat + 10
  else if 'A' ≤ c ∧ c ≤ 'F' then c.toNat - 'A'.toNat + 10
  else 0

/-- `Buffer.from(hex, 'hex')`: consecutive hex-digit pairs to bytes. -/
def hexPairsToBytes : List Char → List Nat
  | a :: b :: rest => (16 * hexVal a + hexVal b) :: hexPairsToBytes rest
  | _ => []

/-- Hex decoding of a string. -/
def hexToBytes (s : String) : List Nat := hexPairsToBytes s.data

/-- One byte to two lower-case hex digits. -/
def byteToHex (b : Nat) : List Char :=
  let digit := fun (n : Nat) =>
    if n < 10 then Char.ofNat ('0'.toNat + n) else Char.ofNat ('a'.toNat + (n - 10))
  [digit (b / 16 % 16), digit (b % 16)]

/-- `buf.toString('hex')`: bytes to lower-case hex. -/
def bytesToHex (bs : List Nat) : String := String.mk (bs.flatMap byteToHex)

/-- Little-endian base-256 digits, `k` bytes. -/
def natToLE : Nat → Nat → List Nat
  | 0, _ => []
  | k + 1, n => (n % 256) :: natToLE k (n / 256)

/-- Value of a little-endian byte list. -/
def leToNat : List Nat → Nat
  | [] => 0
  | b :: bs => b + 256 * leToNat bs

/-- Two's-complement little-endian encoding of an `i64` value
(the byte image produced by `Buffer.writeBigInt64LE`). -/
def i64leBytes (v : Int) : List Nat := natToLE 8 (v.emod (2 ^ 64)).toNat

/-- Decode 8 little-endian bytes as a two's-complement 64-bit integer. -/
def decodeI64LE (bs : List Nat) : Int :=
  let n := leToNat bs
  if n < 2 ^ 63 then (n : Int) else (n : Int) - 2 ^ 64

/-! ## Embedding of `buildTag` (`tagResolver.js`)

```js
function buildTag(tag, confidence, mint, source = 'main') {
  const override = source === 'decoder' && mint !== 'unknown';
  if (!override && confidence < config.CONFIDENCE_THRESHOLD) return null;
  return { tag, confidence, mint, source };
}
```
-/

/-- The classifier's tag result record. -/
structure TagResult where
  tag : String
  confidence : ℚ
  mint : String
  source : String
  deriving Repr, DecidableEq

/-- `buildTag` from `tagResolver.js`; `threshold` is the configuration value
`config.CONFIDENCE_THRESHOLD`. -/
def buildTag (threshold : ℚ) (tag : String) (confidence : ℚ) (mint : String)
    (source : String) : Option TagResult :=
  let override := source == "decoder" && mint != "unknown"
  if !override && confidence < threshold then none
  else some ⟨tag, confidence, mint, source⟩

/-! ## Embedding of the AMM-initPool mint extractor (`decoder.js`)

```js
extractRaydiumMintAddress({ meta }) {
  if (!meta?.postTokenBalances || meta.postTokenBalances.length === 0) {
    return null;
  }
  for (const token of meta.postTokenBalances) {
    const amt = token.uiTokenAmount?.uiAmount;
    if (amt && amt > 0) {
      return token.mint;
    }
  }
  return null;
}
```
-/

/-- One `postTokenBalances`/`preTokenBalances` entry; `uiAmount` is the
(possibly absent) `uiTokenAmount?.uiAmount`. -/
structure TokenBalance where
  accountIndex : Nat
  mint : String
  uiAmount : Option ℚ
  deriving Repr, DecidableEq

/-- Transaction `meta` as consumed by the AMM-initPool decoder. -/
structure TxMeta where
  preTokenBalances : List TokenBalance
  postTokenBalances : List TokenBalance
  deriving Repr, DecidableEq

/-- Truthiness-and-positivity test `amt && amt > 0` on the optional amount. -/
def uiAmountPositive (t : TokenBalance) : Bool :=
  match t.uiAmount with
  | some v => decide (0 < v)
  | none => false

/-- Loop body of `extractRaydiumMintAddress`. -/
def raydiumMintLoop : List TokenBalance → Option String
  | [] => none
  | t :: rest => if uiAmountPositive t then some t.mint else raydiumMintLoop rest

/-- `RaydiumDecoder.extractRaydiumMintAddress` from `decoder.js`. -/
def extractRaydiumMintAddress (meta : TxMeta) : Option String :=
  if meta.postTokenBalances.isEmpty then none
  else raydiumMintLoop meta.postTokenBalances

/-- The AMM-initPool decoder as the claim states it: the first
`postTokenBalances` entry whose `accountIndex` does not appear in
`preTokenBalances` and whose `uiAmount` is positive. Stated from the
specification's words, for comparison with `extractRaydiumMintAddress`. -/
def claimExtractAMMInitPoolMint (meta : TxMeta) : Option String :=
  (meta.postTokenBalances.find? fun t =>
    (meta.preTokenBalances.all fun p => p.accountIndex ≠ t.accountIndex) &&
      uiAmountPositive t).map TokenBalance.mint

/-! ## Base64 (the decoder's payload format)

`decodePumpFunCreate` accepts a payload only when it matches
`/^([A-Za-z0-9+/]{4})*([A-Za-z0-9+/]{2}==|[A-Za-z0-9+/]{3}=)?$/` and then
decodes it with `Buffer.from(encoded, 'base64')`.
-/

/-- Base64 alphabet membership. -/
def isB64Char (c : Char) : Bool :=
  ('A' ≤ c && c ≤ 'Z') || ('a' ≤ c && c ≤ 'z') || ('0' ≤ c && c ≤ '9') ||
    c == '+' || c == '/'

/-- Sextet value of a base64 character. -/
def b64Val (c : Char) : Nat :=
  if 'A' ≤ c ∧ c ≤ 'Z' then c.toNat - 'A'.toNat
  else if 'a' ≤ c ∧ c ≤ 'z' then c.toNat - 'a'.toNat + 26
  else if '0' ≤ c ∧ c ≤ '9' then c.toNat - '0'.toNat + 52
  else if c = '+' then 62
  else 63

/-- The payload regex: groups of four alphabet characters, the final group
optionally padded as `xx==` or `xxx=`. -/
def isB64Chars : List Char → Bool
  | [] => true
  | a :: b :: c :: d :: rest =>
    if rest.isEmpty then
      isB64Char a && isB64Char b &&
        ((isB64Char c && (isB64Char d || d == '=')) || (c == '=' && d == '='))
    else isB64Char a && isB64Char b && isB64Char c && isB64Char d && isB64Chars rest
  | _ => false

/-- Regex test on a string. -/
def isB64 (s : String) : Bool := isB64Chars s.data

/-- Base64 decoding of a regex-accepted character list. -/
def b64decodeChars : List Char → List Nat
  | a :: b :: c :: d :: rest =>
    if c == '=' then
      [(b64Val a) * 4 + (b64Val b) / 16]
    else if d == '=' then
      [(b64Val a) * 4 + (b64Val b) / 16,
       (b64Val b) % 16 * 16 + (b64Val c) / 4]
    else
      ((b64Val a) * 4 + (b64Val b) / 16) ::
        ((b64Val b) % 16 * 16 + (b64Val c) / 4) ::
        ((b64Val c) % 4 * 64 + b64Val d) :: b64decodeChars rest
  | _ => []

/-- `Buffer.from(encoded, 'base64')` on a regex-accepted payload. -/
def b64decode (s : String) : List Nat := b64decodeChars s.data

/-! ## Base58 (`PublicKey.toString`)

`new PublicKey(bytes)` over exactly 32 bytes never fails and `toString`
produces the Bitcoin-alphabet base58 rendering: one `'1'` per leading zero
byte, then the big-endian value in base 58.
-/

/-- The base58 alphabet. -/
def b58Alphabet : List Char :=
  [ '1', '2', '3', '4', '5', '6', '7', '8', '9',
    'A', 'B', 'C', 'D', 'E', 'F', 'G', 'H', 'J', 'K', 'L', 'M', 'N', 'P',
    'Q', 'R', 'S', 'T', 'U', 'V', 'W', 'X', 'Y', 'Z',
    'a', 'b', 'c', 'd', 'e', 'f', 'g', 'h', 'i', 'j', 'k', 'm', 'n', 'o',
    'p', 'q', 'r', 's', 't', 'u', 'v', 'w', 'x', 'y', 'z' ]

/-- Big-endian value of a byte list. -/
def beBytesToNat : List Nat → Nat
  | [] => 0
  | b :: bs => b * 256 ^ bs.length + beBytesToNat bs

/-- Base-58 digits of `n`, least significant first, with enough fuel. -/
def b58DigitsAux : Nat → Nat → List Nat
  | 0, _ => []
  | _ + 1, 0 => []
  | fuel + 1, n => (n % 58) :: b58DigitsAux fuel (n / 58)

/-- Base58 rendering of a byte list (the `PublicKey` base58 form). -/
def base58encode (bs : List Nat) : String :=
  let zeros := (bs.takeWhile (· == 0)).length
  let n := beBytesToNat bs
  let digits := (b58DigitsAux (8 * bs.length + 1) n).reverse
  String.mk (List.replicate zeros '1' ++ digits.map fun d => b58Alphabet.getD d '1')

/-- `new PublicKey(bytes).toString()`, failing unless the slice holds
exactly 32 bytes (the constructor throws otherwise). -/
def pkToBase58 (bs : List Nat) : Option String :=
  if bs.length == 32 then some (base58encode bs) else none

/-! ## Embedding of `PumpfunDecoder.decodePumpFunCreate` (`decoder.js`)

```js
async decodePumpFunCreate(taggedLog = []) {
  const dataLogs = taggedLog.filter(l => l.toLowerCase().includes('program data:'));
  if (dataLogs.length === 0) return null;
  for (const line of dataLogs) {
    const match = line.split(/program data:/i);
    if (match.length < 2) continue;
    const encoded = match[1].trim();
    if (!regex.test(encoded)) continue;
    let buffer; try { buffer = Buffer.from(encoded, 'base64'); } catch { continue; }
    try {
      const fixedMint = new PublicKey(buffer.slice(8, 8 + 32)).toString();
      if (fixedMint.toLowerCase().endsWith('pump')) return { ..., mint: fixedMint, confidence: 0.94 };
    } catch {}
    for (let offset = 0; offset <= buffer.length - 32; offset++) {
      try {
        const candidateMint = new PublicKey(buffer.slice(offset, offset + 32)).toString();
        if (candidateMint.toLowerCase().endsWith('pump')) return { ..., mint: candidateMint, confidence: 0.94 };
      } catch {}
    }
  }
  return null;
}
```
-/

/-- The decoder's successful result. -/
structure PumpCreate where
  tag : String
  mint : String
  confidence : ℚ
  deriving Repr, DecidableEq

/-- The marker scanned for in log lines. -/
def programDataMarker : String := "program data:"

/-- `line.split(/program data:/i)[1].trim()`: the text between the first and
second case-insensitive occurrence of the marker (or the end of the line),
trimmed; `none` when the marker does not occur. -/
def linePayload (line : String) : Option String :=
  match findSubIdx programDataMarker.data (line.data.map lowerChar) with
  | none => none
  | some i =>
    match findSubIdx programDataMarker.data
        ((line.data.map lowerChar).drop (i + programDataMarker.data.length)) with
    | some j =>
      some (String.mk (trimChars
        ((line.data.drop (i + programDataMarker.data.length)).take j)))
    | none =>
      some (String.mk (trimChars
        (line.data.drop (i + programDataMarker.data.length))))

/-- The mint-convention suffix test: base58 form ends with `"pump"`,
case-insensitively. -/
def pumpSuffix (addr : String) : Bool := endsWithStr "pump" (toLowerStr addr)

/-- The fixed-offset attempt: `new PublicKey(buffer.slice(8, 40))` (throwing,
hence skipped, unless the slice holds 32 bytes) followed by the suffix test. -/
def fixedTry (buf : List Nat) : Option PumpCreate :=
  match pkToBase58 ((buf.drop 8).take 32) with
  | none => none
  | some m => if pumpSuffix m then some ⟨"pumpfun_create", m, 94 / 100⟩ else none

/-- The sliding-window loop, `offset` running while `offset + 32 ≤ length`;
fuel-indexed image of the `for` loop. -/
def windowLoopAux (buf : List Nat) : Nat → Nat → Option PumpCreate
  | 0, _ => none
  | fuel + 1, offset =>
    if offset + 32 ≤ buf.length then
      match pkToBase58 ((buf.drop offset).take 32) with
      | none => windowLoopAux buf fuel (offset + 1)
      | some m =>
        if pumpSuffix m then some ⟨"pumpfun_create", m, 94 / 100⟩
        else windowLoopAux buf fuel (offset + 1)
    else none

/-- The decoder's sliding-window scan from offset 0. -/
def windowLoop (buf : List Nat) : Option PumpCreate :=
  windowLoopAux buf (buf.length + 1) 0

/-- Per-buffer scan: fixed offset 8 first, then the sliding window. -/
def scanBuffer (buf : List Nat) : Option PumpCreate :=
  match fixedTry buf with
  | some r => some r
  | none => windowLoop buf

/-- The `for (const line of dataLogs)` loop with its `continue` cases. -/
def scanLines : List String → Option PumpCreate
  | [] => none
  | line :: rest =>
    match linePayload line with
    | none => scanLines rest
    | some enc =>
      if isB64 enc then
        match scanBuffer (b64decode enc) with
        | some r => some r
        | none => scanLines rest
      else scanLines rest

/-- `PumpfunDecoder.decodePumpFunCreate` from `decoder.js`. -/
def decodePumpFunCreate (logs : List String) : Option PumpCreate :=
  let dataLogs := logs.filter fun l => strHasSub programDataMarker (toLowerStr l)
  if dataLogs.isEmpty then none else scanLines dataLogs

/-! The claim's description of the same decoder, written from the
specification's words: collect the frames (payloads of `Program data:` lines
that base64-decode), and for each buffer of length ≥ 32 test the fixed
offset 8 first, then slide a 32-byte window from offset 0 to `len − 32` in
steps of 1, returning the first address whose base58 form ends with
`"pump"`; fail with no mint if no frame yields a match. -/

/-- A line's decoded frame, when its payload is well-formed base64. -/
def claimFramePayload (line : String) : Option (List Nat) :=
  (linePayload line).bind fun enc => if isB64 enc then some (b64decode enc) else none

/-- The claim's test of one 32-byte window. -/
def windowStep (buf : List Nat) (off : Nat) : Option PumpCreate :=
  if pumpSuffix (base58encode ((buf.drop off).take 32)) then
    some ⟨"pumpfun_create", base58encode ((buf.drop off).take 32), 94 / 100⟩
  else none

/-- Per-buffer scan as the claim states it. -/
def claimScanBuffer (buf : List Nat) : Option PumpCreate :=
  if 32 ≤ buf.length then
    if 40 ≤ buf.length ∧ pumpSuffix (base58encode ((buf.drop 8).take 32)) then
      some ⟨"pumpfun_create", base58encode ((buf.drop 8).take 32), 94 / 100⟩
    else
      (List.range (buf.length - 32 + 1)).findSome? (windowStep buf)
  else none

/-- The bonding-curve launch decoder as the claim states it. -/
def claimDecodePumpFunCreate (logs : List String) : Option PumpCreate :=
  (logs.filterMap claimFramePayload).findSome? claimScanBuffer

/-! ## Embedding of `calculateSignalScore` (`heliusSocketClient.js`)

```js
export function calculateSignalScore(logs = [], context = '') {
  const lowerContext = context.toLowerCase();
  return logs.reduce((acc, log) => {
    const lowerLog = log.toLowerCase();
    if (lowerLog.includes('buyexactin')) {
      acc += lowerContext.includes('mintto') || lowerContext.includes('initializemint') ? 0.6 : 0.2;
    }
    if (lowerLog.includes('mintto')) {
      acc += lowerContext.includes('Initializevirtualpoolwithspltoken') || lowerContext.includes('initializemint2') ? 0.7 : 0.4;
    }
    for (const key in SIGNAL_WEIGHTS) {
      if (lowerLog.includes(key.toLowerCase())) {
        acc += SIGNAL_WEIGHTS[key];
      }
    }
    return acc;
  }, 0);
}
```

Note the second conjunctive bonus compares the already lower-cased context
against the needle `'Initializevirtualpoolwithspltoken'`, whose leading
capital `I` is reproduced verbatim below.
-/

/-- The configured `SIGNAL_WEIGHTS` table, in source order. -/
def SIGNAL_WEIGHTS : List (String × ℚ) :=
  [ ("CreatePool", 4/10), ("InitializeMint", 4/10), ("InitializeMint2", 3/10),
    ("InitializeMetadataPointer", 3/10), ("InitializeVirtualPoolWithSplToken", 5/10),
    ("UpdateMetadataAccountV2", 3/10), ("InitializeTokenMetadata", 3/10),
    ("CreateMetadataAccountV3", 4/10), ("OpenPositionV2", 3/10), ("MintTo", 4/10),
    ("SetAuthority", 3/10), ("AddLiquidity", 3/10), ("BuyExactIn", 2/10),
    ("Initialize2", 4/10), ("CreateIdempotent", 3/10), ("CreateAccountWithSeed", 3/10),
    ("Initialize", 3/10), ("InitializeAccount", 1/10), ("InitializeAccount3", 1/10),
    ("InitializeImmutableOwner", 1/10), ("SyncNative", 2/10), ("CreateAccount", 1/10),
    ("Burn", 2/10), ("CloseAccount", 5/100), ("TransferChecked", 5/100),
    ("Create", 1), ("LockCpLiquidity", 4/10), ("MigrateToCpswap", 4/10),
    ("GetAccountDataSize", 5/100) ]

/-- The two conjunctive bonus terms for one log line. -/
def logBonus (lowerCtx lowerLog : String) : ℚ :=
  (if strHasSub "buyexactin" lowerLog then
    (if strHasSub "mintto" lowerCtx || strHasSub "initializemint" lowerCtx
      then 6/10 else 2/10)
  else 0) +
  (if strHasSub "mintto" lowerLog then
    (if strHasSub "Initializevirtualpoolwithspltoken" lowerCtx
        || strHasSub "initializemint2" lowerCtx
      then 7/10 else 4/10)
  else 0)

/-- The weight-table contribution of one log line. -/
def logWeights (lowerLog : String) : ℚ :=
  SIGNAL_WEIGHTS.foldl
    (fun acc kw => if strHasSub (toLowerStr kw.1) lowerLog then acc + kw.2 else acc) 0

/-- `calculateSignalScore` from `heliusSocketClient.js`. -/
def calculateSignalScore (logs : List String) (context : String) : ℚ :=
  let lowerCtx := toLowerStr context
  logs.foldl (fun acc log =>
    let lowerLog := toLowerStr log
    acc + logBonus lowerCtx lowerLog + logWeights lowerLog) 0

/-- The second bonus as the claim states it, with both context needles tested
case-insensitively. Stated from the specification's words, for comparison
with `logBonus`. -/
def claimLogBonus (lowerCtx lowerLog : String) : ℚ :=
  (if strHasSub "buyexactin" lowerLog then
    (if strHasSub "mintto" lowerCtx || strHasSub "initializemint" lowerCtx
      then 6/10 else 2/10)
  else 0) +
  (if strHasSub "mintto" lowerLog then
    (if strHasSub "initializevirtualpoolwithspltoken" lowerCtx
        || strHasSub "initializemint2" lowerCtx
      then 7/10 else 4/10)
  else 0)

/-- The scorer as the claim states it. -/
def claimCalculateSignalScore (logs : List String) (context : String) : ℚ :=
  let lowerCtx := toLowerStr context
  logs.foldl (fun acc log =>
    let lowerLog := toLowerStr log
    acc + claimLogBonus lowerCtx lowerLog + logWeights lowerLog) 0

/-! ## Embedding of `matchFingerprint` (`tagResolver.js`)

```js
function matchFingerprint(logs = [], instructions = [], programId = 'unknown') {
  const logText = logs.join(' ').toLowerCase();
  const normalized = instructions.map(i => i?.toLowerCase());
  for (const [tag, fp] of Object.entries(FINGERPRINTS)) {
    const { instructions: expected, logic, programs, minScore = 0 } = fp;
    const normalizedExpected = expected.map(i => i.toLowerCase());
    const matchCount = normalizedExpected
      .filter(instr => normalized.includes(instr) || logText.includes(instr)).length;
    const programMatched = programs.some(prog =>
      prog.toLowerCase() === programId.toLowerCase() || logText.includes(prog.toLowerCase()));
    const score = matchCount + (programMatched ? 1 : 0);
    if (score < minScore) continue;
    if (!programMatched) continue;
    const passes =
      (logic === 'AND' && matchCount === normalizedExpected.length && programMatched) ||
      (logic === 'OR' && (matchCount > 0 || programMatched)) ||
      (logic === 'FUZZY' && matchCount >= Math.ceil(normalizedExpected.length / 2));
    if (passes) return { tag, confidence: fp.confidence, score };
  }
  return null;
}
```
-/

/-- One configured fingerprint. (`requireMetadata` is never read by
`matchFingerprint` and is omitted.) -/
structure Fingerprint where
  instructions : List String
  programs : List String
  confidence : ℚ
  minScore : ℚ
  logic : String
  deriving Repr, DecidableEq

/-- A fingerprint match result. -/
structure FpMatch where
  tag : String
  confidence : ℚ
  score : ℚ
  deriving Repr, DecidableEq

/-- The configured `FINGERPRINTS`, in `Object.entries` (insertion) order. -/
def FINGERPRINTS : List (String × Fingerprint) :=
  [ ("launch_mint_metadata",
      ⟨["MintTo", "CreateMetadataAccountV3", "Create", "initializeMetadataPointer",
        "initializeMint"],
       ["splToken", "tokenMetadata", "TokenzQdBNbLqP5VEhdkAS6EPFLC1PHnBqCXEpPxuEb"],
       96/100, 1, "AND"⟩),
    ("pumpfun_create",
      ⟨["Create", "MintTo", "SetAuthority", "CreatePool", "InitializeImmutableOwner"],
       ["6EF8rrecthR5Dkzon8Nwu78hRvfCKubJ14M5uBEwF6P",
        "pAMMBay6oceH9fJKBRHGP5D4bD4sWpmSwMn52FMfXEA"],
       94/100, 8/10, "FUZZY"⟩),
    ("raydium_initPool",
      ⟨["Initialize", "MintTo", "BuyExactIn", "InitializeAccount3"],
       ["LanMV9sAd7wArD4vJFi2qDdfnVhFxYSUg6eADduJ3uj",
        "TokenzQdBNbLqP5VEhdkAS6EPFLC1PHnBqCXEpPxuEb"],
       92/100, 8/10, "AND"⟩),
    ("meteora_initPool",
      ⟨["InitializeMint2", "InitializeAccount3", "SetAuthority",
        "InitializeVirtualPoolWithSplToken"],
       ["dbcij3LWUppWqq96dh6gJWwBifmcGfLSB5D4DuSMaqN"],
       1, 15/10, "FUZZY"⟩) ]

/-- `Math.ceil(n / 2)` for a natural `n`. -/
def jsCeilHalf (n : Nat) : Nat := (n + 1) / 2

/-- `matchCount` for one fingerprint: expected instruction names (lowercased)
found among the decoded instruction names or as substrings of the joined
log text. `instructions` entries may be `null` in the source
(`i?.toLowerCase()`), hence the `Option`. -/
def fpMatchCount (fp : Fingerprint) (normalized : List (Option String))
    (logText : String) : Nat :=
  ((fp.instructions.map toLowerStr).filter fun instr =>
    normalized.contains (some instr) || strHasSub instr logText).length

/-- `programMatched` for one fingerprint. -/
def fpProgramMatched (fp : Fingerprint) (logText : String) (programId : String) : Bool :=
  fp.programs.any fun prog =>
    toLowerStr prog == toLowerStr programId || strHasSub (toLowerStr prog) logText

/-- The `passes` disjunction of the loop body. -/
def fpPasses (fp : Fingerprint) (matchCount : Nat) (programMatched : Bool) : Bool :=
  (fp.logic == "AND" && matchCount == fp.instructions.length && programMatched) ||
  (fp.logic == "OR" && (decide (0 < matchCount) || programMatched)) ||
  (fp.logic == "FUZZY" && decide (jsCeilHalf fp.instructions.length ≤ matchCount))

/-- Whole loop body for one fingerprint: the two `continue` gates followed by
`passes`; `true` means this iteration returns. -/
def fpAccepts (fp : Fingerprint) (normalized : List (Option String))
    (logText : String) (programId : String) : Bool :=
  let matchCount := fpMatchCount fp normalized logText
  let programMatched := fpProgramMatched fp logText programId
  let score : ℚ := matchCount + (if programMatched then 1 else 0)
  if score < fp.minScore then false
  else if !programMatched then false
  else fpPasses fp matchCount programMatched

/-- The loop of `matchFingerprint` over an arbitrary fingerprint list. -/
def matchFingerprintList (fps : List (String × Fingerprint))
    (normalized : List (Option String)) (logText : String) (programId : String) :
    Option FpMatch :=
  match fps with
  | [] => none
  | (tag, fp) :: rest =>
    if fpAccepts fp normalized logText programId then
      some ⟨tag, fp.confidence,
        (fpMatchCount fp normalized logText : ℚ) +
          (if fpProgramMatched fp logText programId then 1 else 0)⟩
    else matchFingerprintList rest normalized logText programId

/-- `matchFingerprint` from `tagResolver.js`. -/
def matchFingerprint (logs : List String) (instructions : List (Option String))
    (programId : String) : Option FpMatch :=
  let logText := toLowerStr (String.intercalate " " logs)
  let normalized := instructions.map (Option.map toLowerStr)
  matchFingerprintList FINGERPRINTS normalized logText programId

/-! ## Embedding of `withBackoff` (`HeliusSocketClient.js`)

```js
export async function withBackoff(fn, maxRetries = 5, fnName = 'unknown') {
  let delay = 500;
  for (let i = 0; i < maxRetries; i++) {
    try {
      return await fn();
    } catch (err) {
      if (err.message?.includes('429')) {
        await new Promise(res => setTimeout(res, delay + Math.random() * 150));
        delay *= 2;
      } else throw err;
    }
  }
  throw new Error(`[${fnName}] Max retries reached.`);
}
```

The wrapped effectful `fn` is embedded as a map from attempt number to
outcome, `Math.random() * 150` as an ambient jitter sequence, and the run
returns the overall result together with the number of calls made to `fn`
and the list of waits performed.
-/

/-- Outcome of one call of the wrapped function: return or throw. -/
inductive JsOutcome (α : Type) where
  | ok (v : α)
  | err (msg : String)
  deriving Repr, DecidableEq

/-- One run record: result, number of calls of `fn`, waits performed. -/
structure BackoffRun (α : Type) where
  result : Except String α
  calls : Nat
  waits : List ℚ
  deriving Repr

/-- The retry loop; recursion over the remaining attempts, `i` the attempt
index and `delay` the current base delay. -/
def withBackoffAux {α : Type} (fn : Nat → JsOutcome α) (jitter : Nat → ℚ)
    (fnName : String) : Nat → Nat → ℚ → BackoffRun α
  | 0, _, _ => ⟨.error ("[" ++ fnName ++ "] Max retries reached."), 0, []⟩
  | rem + 1, i, delay =>
    match fn i with
    | .ok v => ⟨.ok v, 1, []⟩
    | .err m =>
      if strHasSub "429" m then
        let r := withBackoffAux fn jitter fnName rem (i + 1) (2 * delay)
        ⟨r.result, r.calls + 1, (delay + jitter i) :: r.waits⟩
      else ⟨.error m, 1, []⟩

/-- `withBackoff` from `HeliusSocketClient.js`. -/
def withBackoff {α : Type} (fn : Nat → JsOutcome α) (jitter : Nat → ℚ)
    (maxRetries : Nat) (fnName : String) : BackoffRun α :=
  withBackoffAux fn jitter fnName maxRetries 0 500

/-- The claim's retriable-error test: rate-limiting (`429` or
`Too Many Requests`), `timeout` or `gateway`. Stated from the
specification's words, for comparison with the `'429'`-only test
actually performed by `withBackoff`. -/
def claimRetriable (msg : String) : Bool :=
  strHasSub "429" msg || strHasSub "Too Many Requests" msg ||
    strHasSub "timeout" msg || strHasSub "gateway" msg

/-! ## Embedding of the websocket dedup map (`createWebSocket`)

```js
const processedSigs = new Map();
setInterval(() => {
  for (const [sig, timestamp] of processedSigs.entries()) {
    if (Date.now() - timestamp > 60000) { processedSigs.delete(sig); }
  }
}, 10000);
...
ws.on('message', async msg => {
  ...
  if (processedSigs.has(sig)) return;
  processedSigs.set(sig, Date.now());
  ... // classification and snipe execution
});
```

The map is a signature/insertion-timestamp association list; the message
handler and the periodic sweep are the two events that touch it.
Timestamps are naturals (milliseconds).
-/

/-- The dedup map. -/
abbrev SigMap : Type := List (String × Nat)

/-- `processedSigs.has(sig)`. -/
def sigHas (m : SigMap) (sig : String) : Bool := m.any fun p => p.1 == sig

/-- The dedup step of the message handler at time `now`: `true` means the
message survives dedup and is processed (classified and, on match,
executed); `false` means it is dropped. -/
def handleMsg (m : SigMap) (sig : String) (now : Nat) : SigMap × Bool :=
  if sigHas m sig then (m, false) else ((sig, now) :: m, true)

/-- The periodic sweep at time `now`: deletes the entries older than 60 s. -/
def sweepMap (m : SigMap) (now : Nat) : SigMap :=
  m.filter fun p => !(decide (60000 < now - p.2))

/-- One event touching the dedup map. -/
inductive DedupEvent where
  | msg (sig : String) (t : Nat)
  | sweep (t : Nat)
  deriving Repr, DecidableEq

/-- The time an event occurs at. -/
def DedupEvent.time : DedupEvent → Nat
  | .msg _ t => t
  | .sweep t => t

/-- Run a sequence of events over the dedup map. -/
def runDedup (m : SigMap) : List DedupEvent → SigMap
  | [] => m
  | .msg sig t :: rest => runDedup (handleMsg m sig t).1 rest
  | .sweep t :: rest => runDedup (sweepMap m t) rest

/-! ## Embedding of `validateMintCandidate` (`tagResolver.js`)

```js
const checkedMints = new Map();
export async function validateMintCandidate(pubkeyStr) {
  if (checkedMints.has(pubkeyStr)) return checkedMints.get(pubkeyStr);
  ... // rate token
  const result = await withBackoff(async () => {
    ... // POST getAccountInfo(pubkeyStr, jsonParsed)
    const isValid =
      info?.result?.value?.owner === 'TokenkegQfeZyiNwAJbNbGKPFXCWuBvf9Ss623VQ5DA' &&
      data?.parsed?.type === 'mint';
    checkedMints.set(pubkeyStr, isValid);
    return isValid;
  });
  return result;
}
```

The RPC is embedded as a map from address to (successfully fetched)
account response; the cache as an association list threaded through a
sequence of calls.
-/

/-- The fields of a `getAccountInfo` response the validator reads:
`result?.value?.owner` and `result?.value?.data?.parsed?.type`. -/
structure AccountResp where
  owner : Option String
  parsedType : Option String
  deriving Repr, DecidableEq

/-- The token program address. -/
def TOKEN_PROGRAM : String := "TokenkegQfeZyiNwAJbNbGKPFXCWuBvf9Ss623VQ5DA"

/-- The `isValid` computation on a response. -/
def isValidResp (r : AccountResp) : Bool :=
  r.owner == some TOKEN_PROGRAM && r.parsedType == some "mint"

/-- Cache lookup (`checkedMints.get`). -/
def cacheGet (cache : List (String × Bool)) (a : String) : Option Bool :=
  (cache.find? fun p => p.1 == a).map Prod.snd

/-- One call of `validateMintCandidate`: result, updated cache, and whether
a `getAccountInfo` RPC call was performed. -/
def validateMintCandidate (rpc : String → AccountResp)
    (cache : List (String × Bool)) (a : String) :
    Bool × List (String × Bool) × Bool :=
  match cacheGet cache a with
  | some b => (b, cache, false)
  | none =>
    let v := isValidResp (rpc a)
    (v, (a, v) :: cache, true)

/-- Sequentially validate a list of addresses from a given cache, returning
the per-call (address, result) pairs and the list of addresses for which a
`getAccountInfo` RPC call was made. -/
def runValidations (rpc : String → AccountResp) (cache : List (String × Bool)) :
    List String → List (String × Bool) × List String
  | [] => ([], [])
  | a :: rest =>
    let step := validateMintCandidate rpc cache a
    let tail := runValidations rpc step.2.1 rest
    ((a, step.1) :: tail.1, (if step.2.2 then [a] else []) ++ tail.2)

/-! ## Embedding of the snipe executor (`executePumpSwap`)

```js
const lamportsIn = BigInt(Math.floor(Number(amountIn) * 1e9));
const maxSol = BigInt(-1);
const data = Buffer.alloc(24);
Buffer.from(this.BUY_DISCRIM_HEX, 'hex').copy(data, 0);
data.writeBigInt64LE(lamportsIn, 8);
data.writeBigInt64LE(maxSol, 16);
...
const { ata: userATA, ix: createUserAtaIx } = await this._getOrCreateATAIx(...);
// _getOrCreateATAIx: info = getAccountInfo(ata); ix = info ? null : createAssociatedTokenAccountInstruction(...)
const buyIx = { keys: [ 12 accounts ], programId: this.PUMP_PROGRAM_ID, data };
const tx = new Transaction({ recentBlockhash, feePayer });
if (createUserAtaIx) tx.add(createUserAtaIx);
tx.add(buyIx);
```

`Buffer.writeBigInt64LE` throws `ERR_OUT_OF_RANGE` unless the value lies in
`[-2^63, 2^63)`; the assembly therefore returns `none` outside that range
(the executor then fails without building a transaction). PDA and ATA
derivations are SHA-256 based and are taken as inputs of the pure
transaction-assembly function.
-/

/-- `Buffer.alloc(n)`: `n` zero bytes. -/
def jsAlloc (n : Nat) : List Nat := List.replicate n 0

/-- `src.copy(dst, offset)`: overwrite `dst` from `offset` with as much of
`src` as fits. -/
def bufCopy (src dst : List Nat) (offset : Nat) : List Nat :=
  let len := min src.length (dst.length - offset)
  dst.take offset ++ src.take len ++ dst.drop (offset + len)

/-- `buf.writeBigInt64LE(v, offset)`: range-checked two's-complement write. -/
def writeBigInt64LE (buf : List Nat) (v : Int) (offset : Nat) : Option (List Nat) :=
  if -(2 ^ 63) ≤ v ∧ v < 2 ^ 63 then some (bufCopy (i64leBytes v) buf offset)
  else none

/-- The configured buy discriminator. -/
def BUY_DISCRIM_HEX : String := "66063d1201daebea"

/-- The launchpad program id. -/
def PUMP_PROGRAM_ID : String := "6EF8rrecthR5Dkzon8Nwu78hRvfCKubJ14M5uBEwF6P"

/-- The associated-token-account program id (the program id of a
`createAssociatedTokenAccountInstruction`). -/
def ATA_PROGRAM_ID : String := "ATokenGPvbdGVxr1b2hvZbsiqW5xWH25efTNsLJA8knL"

/-- The buy-instruction data assembly of `executePumpSwap`. -/
def assembleBuyData (lamportsIn maxSol : Int) : Option (List Nat) :=
  let data := jsAlloc 24
  let data := bufCopy (hexToBytes BUY_DISCRIM_HEX) data 0
  (writeBigInt64LE data lamportsIn 8).bind fun d => writeBigInt64LE d maxSol 16

/-- One account meta of an instruction. -/
structure AccountMeta where
  pubkey : String
  signer : Bool
  writable : Bool
  deriving Repr, DecidableEq

/-- One transaction instruction. -/
structure Instr where
  programId : String
  keys : List AccountMeta
  data : List Nat
  deriving Repr, DecidableEq

/-- `createAssociatedTokenAccountInstruction(payer, ata, owner, mint)`:
for this development only its program id and accounts matter. -/
def createAssociatedTokenAccountInstruction (payer ata owner mint : String) : Instr :=
  ⟨ATA_PROGRAM_ID,
   [⟨payer, true, true⟩, ⟨ata, false, true⟩, ⟨owner, false, false⟩,
    ⟨mint, false, false⟩,
    ⟨"11111111111111111111111111111111", false, false⟩,
    ⟨TOKEN_PROGRAM, false, false⟩], []⟩

/-- `_getOrCreateATAIx`: given the `getAccountInfo(ata)` answer, the
instruction is built exactly when the account is absent. -/
def getOrCreateATAIx (ataInfo : Option AccountResp) (payer ata owner mint : String) :
    Option Instr :=
  match ataInfo with
  | none => some (createAssociatedTokenAccountInstruction payer ata owner mint)
  | some _ => none

/-- The non-RPC inputs of the transaction assembly: the derived addresses
and configured constants, taken as parameters (PDA/ATA derivation is
SHA-256 based and external to this embedding). -/
structure SwapCtx where
  payer : String
  mint : String
  globalPda : String
  bondingCurvePda : String
  bondingCurveATA : String
  userATA : String
  deriving Repr, DecidableEq

/-- The buy instruction's twelve ordered account metas. -/
def buyKeys (c : SwapCtx) : List AccountMeta :=
  [ ⟨c.globalPda, false, false⟩,
    ⟨"CebN5WGQ4jvEPvsVU4EoHEpgzq1VV7AbicfhtW4xC9iM", false, true⟩,
    ⟨c.mint, false, false⟩,
    ⟨c.bondingCurvePda, false, true⟩,
    ⟨c.bondingCurveATA, false, true⟩,
    ⟨c.userATA, false, true⟩,
    ⟨c.payer, true, true⟩,
    ⟨"11111111111111111111111111111111", false, false⟩,
    ⟨TOKEN_PROGRAM, false, false⟩,
    ⟨"SysvarRent11111111111111111111111111111111", false, false⟩,
    ⟨"Ce6TQqeCH9p8KetsN6JsjHK7UTZk7nasjjnr7XxXp9F1", false, false⟩,
    ⟨PUMP_PROGRAM_ID, false, false⟩ ]

/-- The instruction list of the transaction `executePumpSwap` submits:
the optional ATA-create (present iff `getAccountInfo(userATA)` returned
absent) followed by the buy instruction. Fails (no transaction) when the
data buffer assembly fails. -/
def buildPumpSwapTx (c : SwapCtx) (lamportsIn : Int)
    (userAtaInfo : Option AccountResp) : Option (List Instr) :=
  (assembleBuyData lamportsIn (-1)).map fun data =>
    let buyIx : Instr := ⟨PUMP_PROGRAM_ID, buyKeys c, data⟩
    (match getOrCreateATAIx userAtaInfo c.payer c.userATA c.payer c.mint with
     | some ix => [ix]
     | none => []) ++ [buyIx]

/-- An instruction is a "create associated token account" instruction. -/
def isAtaCreateIx (ix : Instr) : Bool := ix.programId == ATA_PROGRAM_ID

/-- An instruction is the launchpad-buy instruction. -/
def isBuyIx (ix : Instr) : Bool := ix.programId == PUMP_PROGRAM_ID

/-! ## Concrete sample inputs used by witnesses -/

/-- A concrete RPC stub for validator runs: only `"Mint111"` answers as a
token-program mint account. -/
def rpcStub (a : String) : AccountResp :=
  if a == "Mint111" then ⟨some TOKEN_PROGRAM, some "mint"⟩ else ⟨none, none⟩

/-- A concrete query list with a repeated address. -/
def queriesStub : List String := ["Mint111", "Mint111", "Other22", "Mint111"]

/-- A concrete zero jitter sequence. -/
def zeroJitter : Nat → ℚ := fun _ => 0

/-- A wrapped function that always fails rate-limited. -/
def always429 : Nat → JsOutcome Nat := fun _ => .err "429 Too Many Requests"

/-- A wrapped function that fails with a timeout once, then succeeds. -/
def timeoutThenOk : Nat → JsOutcome Nat := fun i => if i == 0 then .err "timeout" else .ok 7

/-- A concrete executor context for witnesses. -/
def swapCtxStub : SwapCtx :=
  ⟨"Payer111", "Mint111", "Global11", "Curve111", "CurveAta1", "UserAta11"⟩

/-- A concrete dedup trace fragment: one sweep and one unrelated message
between the two observations. -/
def midTraceStub : List DedupEvent := [.sweep 30000, .msg "other-sig" 40000]

/-- The fourth configured fingerprint (`meteora_initPool`). -/
def meteoraFp : Fingerprint := (FINGERPRINTS.getD 3 ("", ⟨[], [], 0, 0, ""⟩)).2

/-- A concrete joined-and-lowercased log text for the matcher witness. -/
def meteoraLogText : String :=
  toLowerStr (String.intercalate " "
    ["Program dbcij3LWUppWqq96dh6gJWwBifmcGfLSB5D4DuSMaqN invoke",
     "Program log: Instruction: InitializeMint2",
     "Program log: Instruction: SetAuthority",
     "Program log: Instruction: InitializeVirtualPoolWithSplToken"])

end Snipe

namespace Snipe

/-! # Theorems -/

/-! ## C9 — the AMM-initPool mint extractor -/

/-- The loop of `extractRaydiumMintAddress` is the first-positive search. -/
theorem raydiumMintLoop_eq_find (l : List TokenBalance) :
    raydiumMintLoop l = (l.find? uiAmountPositive).map TokenBalance.mint := by
  induction l with
  | nil => rfl
  | cons t rest ih =>
    by_cases h : uiAmountPositive t = true
    · simp [raydiumMintLoop, List.find?, h]
    · simp only [Bool.not_eq_true] at h
      simp [raydiumMintLoop, List.find?, h, ih]

/-- C9 (counterexample): with a single post-balance entry whose
`accountIndex` 0 already appears in `preTokenBalances`, the claim says no
entry qualifies (so the decoder should return no mint), but
`extractRaydiumMintAddress` never consults `preTokenBalances` and returns
that entry's mint. -/
theorem extractRaydiumMintAddress_ignores_pre :
    extractRaydiumMintAddress ⟨[⟨0, "X", some 1⟩], [⟨0, "M", some 5⟩]⟩ = some "M" ∧
      claimExtractAMMInitPoolMint ⟨[⟨0, "X", some 1⟩], [⟨0, "M", some 5⟩]⟩ = none := by
  constructor <;> rfl

/-- C9 (amended): the AMM-initPool decoder returns the mint of the first
`postTokenBalances` entry whose `uiAmount` is present and greater than 0 —
`preTokenBalances` plays no role — and no mint when no entry qualifies. -/
theorem extractRaydiumMintAddress_first_positive (meta : TxMeta) :
    extractRaydiumMintAddress meta =
      (meta.postTokenBalances.find? uiAmountPositive).map TokenBalance.mint := by
  unfold extractRaydiumMintAddress
  by_cases h : meta.postTokenBalances.isEmpty
  · rw [List.isEmpty_iff] at h
    simp [h, List.isEmpty_iff]
  · simp only [h, if_false, Bool.false_eq_true]
    exact raydiumMintLoop_eq_find _

/-! ## C10 — `buildTag` threshold override -/

/-- C10: a tag result whose source is `decoder` and whose mint is a concrete
address (not `"unknown"`) is returned even when its confidence is below
`CONFIDENCE_THRESHOLD`; a result from any other source whose confidence is
below the threshold is suppressed to `null`. -/
theorem buildTag_decoder_override (threshold confidence : ℚ) (tag mint source : String) :
    (source = "decoder" → mint ≠ "unknown" →
      buildTag threshold tag confidence mint source =
        some ⟨tag, confidence, mint, source⟩) ∧
    (source ≠ "decoder" → confidence < threshold →
      buildTag threshold tag confidence mint source = none) := by
  constructor
  · intro hs hm
    subst hs
    simp [buildTag, hm]
  · intro hs hc
    have hs' : (source == "decoder") = false := beq_eq_false_iff_ne.mpr hs
    simp [buildTag, hs', hc]

/-- C10 witness: a below-threshold decoder result with a concrete mint is
returned; a below-threshold fingerprint result is suppressed. -/
theorem buildTag_decoder_override_witness :
    buildTag (7/10) "pumpfun_create" (1/2) "Mint111" "decoder" =
        some ⟨"pumpfun_create", 1/2, "Mint111", "decoder"⟩ ∧
      buildTag (7/10) "raydium_initPool" (1/2) "unknown" "main" = none :=
  ⟨(buildTag_decoder_override (7/10) (1/2) "pumpfun_create" "Mint111" "decoder").1
      rfl (by decide),
   (buildTag_decoder_override (7/10) (1/2) "raydium_initPool" "unknown" "main").2
      (by decide) (by norm_num)⟩

/-! ## C5 — the conjunctive scorer bonuses -/

/-- The weight fold accumulates the sum of the weights of the matching keys. -/
theorem foldl_weight_filter (p : (String × ℚ) → Bool) (l : List (String × ℚ)) (acc : ℚ) :
    l.foldl (fun a kw => if p kw then a + kw.2 else a) acc =
      acc + ((l.filter p).map Prod.snd).sum := by
  induction l generalizing acc with
  | nil => simp
  | cons kw rest ih =>
    by_cases h : p kw = true
    · simp [List.foldl, h, ih, add_assoc]
    · simp only [Bool.not_eq_true] at h
      simp [List.foldl, h, ih]

/-- `logWeights` as a filtered sum over the weight table. -/
theorem logWeights_eq_sum (ll : String) :
    logWeights ll =
      ((SIGNAL_WEIGHTS.filter fun kw => strHasSub (toLowerStr kw.1) ll).map
        Prod.snd).sum := by
  unfold logWeights
  rw [foldl_weight_filter]
  simp

/-- C5: the second conjunctive bonus of `calculateSignalScore` compares the
lower-cased context against the needle `'Initializevirtualpoolwithspltoken'`,
whose capital `I` can never occur in a lower-cased string; a context
consisting exactly of `initializeVirtualPoolWithSplToken` therefore earns
the `mintTo` line the 0.4 bonus (total 0.8 with the `MintTo` table weight)
instead of the 0.7 bonus (total 1.1) that the claim's case-insensitive
reading prescribes. -/
theorem calculateSignalScore_case_mismatch :
    calculateSignalScore ["mintTo"] "initializeVirtualPoolWithSplToken" = 4/5 ∧
      claimCalculateSignalScore ["mintTo"] "initializeVirtualPoolWithSplToken" = 11/10 := by
  have hw : (SIGNAL_WEIGHTS.filter fun kw =>
      strHasSub (toLowerStr kw.1) (toLowerStr "mintTo")) = [("MintTo", 4/10)] := rfl
  have hfix : strHasSub "Initializevirtualpoolwithspltoken"
      (toLowerStr "initializeVirtualPoolWithSplToken") = false := rfl
  have hci : strHasSub "initializevirtualpoolwithspltoken"
      (toLowerStr "initializeVirtualPoolWithSplToken") = true := rfl
  have hm2 : strHasSub "initializemint2"
      (toLowerStr "initializeVirtualPoolWithSplToken") = false := rfl
  have hbe : strHasSub "buyexactin" (toLowerStr "mintTo") = false := rfl
  have hmt : strHasSub "mintto" (toLowerStr "mintTo") = true := rfl
  have hb : logBonus (toLowerStr "initializeVirtualPoolWithSplToken")
      (toLowerStr "mintTo") = 4/10 := by
    unfold logBonus
    rw [hfix, hm2, hbe, hmt]
    norm_num
  have hb' : claimLogBonus (toLowerStr "initializeVirtualPoolWithSplToken")
      (toLowerStr "mintTo") = 7/10 := by
    unfold claimLogBonus
    rw [hci, hbe, hmt]
    norm_num
  constructor
  · show (0 : ℚ) + logBonus _ _ + logWeights _ = 4/5
    rw [hb, logWeights_eq_sum, hw]
    norm_num
  · show (0 : ℚ) + claimLogBonus _ _ + logWeights _ = 11/10
    rw [hb', logWeights_eq_sum, hw]
    norm_num

/-! ## C1 — the buy-instruction data buffer -/

/-- `natToLE` always produces exactly `k` bytes. -/
theorem length_natToLE (k n : Nat) : (natToLE k n).length = k := by
  induction k generalizing n with
  | zero => rfl
  | succ k ih => simp [natToLE, ih]

/-- `leToNat` inverts `natToLE` below `256 ^ k`. -/
theorem leToNat_natToLE (k n : Nat) (h : n < 256 ^ k) : leToNat (natToLE k n) = n := by
  induction k generalizing n with
  | zero =>
    interval_cases n
    rfl
  | succ k ih =>
    have hdiv : n / 256 < 256 ^ k := by
      rw [Nat.div_lt_iff_lt_mul (by norm_num)]
      calc n < 256 ^ (k + 1) := h
        _ = 256 ^ k * 256 := by ring
    simp only [natToLE, leToNat, ih _ hdiv]
    omega

/-- An `i64` little-endian image is 8 bytes long. -/
theorem length_i64leBytes (v : Int) : (i64leBytes v).length = 8 :=
  length_natToLE 8 _

/-- Decoding the two's-complement little-endian image recovers any value in
the `i64` range. -/
theorem decodeI64LE_i64leBytes (v : Int) (h1 : -(2 ^ 63) ≤ v) (h2 : v < 2 ^ 63) :
    decodeI64LE (i64leBytes v) = v := by
  have hm : (0 : Int) < 2 ^ 64 := by norm_num
  have he0 : 0 ≤ v.emod (2 ^ 64) := Int.emod_nonneg v (by norm_num)
  have he1 : v.emod (2 ^ 64) < 2 ^ 64 := Int.emod_lt_of_pos v hm
  have hn : ((v.emod (2 ^ 64)).toNat : Int) = v.emod (2 ^ 64) := Int.toNat_of_nonneg he0
  have hlt : (v.emod (2 ^ 64)).toNat < 256 ^ 8 := by
    have hc : ((v.emod (2 ^ 64)).toNat : Int) < 2 ^ 64 := by rw [hn]; exact he1
    have h64 : (256 : Nat) ^ 8 = 2 ^ 64 := by norm_num
    rw [h64]
    exact_mod_cast hc
  have hres : v.emod (2 ^ 64) = v - 2 ^ 64 * (v / 2 ^ 64) := Int.emod_def v _
  unfold decodeI64LE i64leBytes
  rw [leToNat_natToLE 8 _ hlt]
  by_cases hc : (v.emod (2 ^ 64)).toNat < 2 ^ 63
  · rw [if_pos hc]
    omega
  · rw [if_neg hc]
    omega

/-- Overwriting an exactly-fitting segment of a buffer. -/
theorem bufCopy_at (pre old post src : List Nat) (h : old.length = src.length) :
    bufCopy src (pre ++ old ++ post) pre.length = pre ++ src ++ post := by
  simp only [bufCopy]
  have hlen : (pre ++ old ++ post).length = pre.length + old.length + post.length := by
    simp only [List.length_append]
  have hmin : min src.length ((pre ++ old ++ post).length - pre.length) = src.length := by
    rw [hlen]
    omega
  rw [hmin, List.take_length]
  have htake : (pre ++ old ++ post).take pre.length = pre := by
    rw [List.append_assoc]
    exact List.take_left' rfl
  have hdrop : (pre ++ old ++ post).drop (pre.length + src.length) = post := by
    have hl : (pre ++ old).length = pre.length + src.length := by simp [h]
    rw [← hl]
    exact List.drop_left' rfl
  rw [htake, hdrop]

/-- In-range writes assemble the 24-byte
`discriminator || amount_le || max_le` buffer. -/
theorem assembleBuyData_eq (a s : Int)
    (ha1 : -(2 ^ 63) ≤ a) (ha2 : a < 2 ^ 63) (hs1 : -(2 ^ 63) ≤ s) (hs2 : s < 2 ^ 63) :
    assembleBuyData a s =
      some (hexToBytes BUY_DISCRIM_HEX ++ i64leBytes a ++ i64leBytes s) := by
  simp only [assembleBuyData, writeBigInt64LE]
  rw [if_pos ⟨ha1, ha2⟩]
  have hd : bufCopy (hexToBytes BUY_DISCRIM_HEX) (jsAlloc 24) 0 =
      hexToBytes BUY_DISCRIM_HEX ++ (List.replicate 8 0 ++ List.replicate 8 0) := rfl
  rw [hd]
  have h8 : (hexToBytes BUY_DISCRIM_HEX).length = 8 := rfl
  have hw1 : bufCopy (i64leBytes a)
      (hexToBytes BUY_DISCRIM_HEX ++ (List.replicate 8 0 ++ List.replicate 8 0)) 8 =
      hexToBytes BUY_DISCRIM_HEX ++ (i64leBytes a ++ List.replicate 8 0) := by
    have hb := bufCopy_at (hexToBytes BUY_DISCRIM_HEX) (List.replicate 8 0)
      (List.replicate 8 0) (i64leBytes a)
      (by simp [length_i64leBytes])
    rw [h8] at hb
    simpa [List.append_assoc] using hb
  rw [hw1, Option.some_bind]
  rw [if_pos ⟨hs1, hs2⟩]
  have hw2 : bufCopy (i64leBytes s)
      (hexToBytes BUY_DISCRIM_HEX ++ (i64leBytes a ++ List.replicate 8 0)) 16 =
      hexToBytes BUY_DISCRIM_HEX ++ (i64leBytes a ++ i64leBytes s) := by
    have hb := bufCopy_at (hexToBytes BUY_DISCRIM_HEX ++ i64leBytes a)
      (List.replicate 8 0) ([] : List Nat) (i64leBytes s)
      (by simp [length_i64leBytes])
    have hl : (hexToBytes BUY_DISCRIM_HEX ++ i64leBytes a).length = 16 := by
      simp [h8, length_i64leBytes]
    rw [hl] at hb
    simpa [List.append_assoc] using hb
  rw [hw2]
  simp [List.append_assoc]

/-- C1 (counterexample): the claim quantifies `amount_native` over all of
`u64`, but for `amount_native = 2 ^ 63` the `writeBigInt64LE` call throws
`ERR_OUT_OF_RANGE` and no data buffer is assembled at all. -/
theorem assembleBuyData_u64_overflow : assembleBuyData (2 ^ 63) (-1) = none := by
  simp only [assembleBuyData, writeBigInt64LE]
  rw [if_neg (by norm_num)]
  rfl

/-- C1 (amended): for every `amount_native` representable as an `i64`
(`0 ≤ a < 2^63`) and every `i64` slippage sentinel, the assembled buy data
is exactly 24 bytes, bytes 0–7 are the configured discriminator, and bytes
8–15 resp. 16–23 decode back, as two's-complement little-endian 64-bit
integers, to the amount and the sentinel. (Amounts in `[2^63, 2^64)` make
`writeBigInt64LE` throw instead.) -/
theorem executePumpSwap_buy_buffer (a s : Int) (ha0 : 0 ≤ a) (ha : a < 2 ^ 63)
    (hs0 : -(2 ^ 63) ≤ s) (hs : s < 2 ^ 63) :
    ∃ b, assembleBuyData a s = some b ∧ b.length = 24 ∧
      b.take 8 = hexToBytes BUY_DISCRIM_HEX ∧
      decodeI64LE ((b.drop 8).take 8) = a ∧
      decodeI64LE (b.drop 16) = s := by
  have ha1 : -(2 ^ 63) ≤ a := le_trans (by norm_num) ha0
  refine ⟨_, assembleBuyData_eq a s ha1 ha hs0 hs, ?_, ?_, ?_, ?_⟩
  · simp [length_i64leBytes, show (hexToBytes BUY_DISCRIM_HEX).length = 8 from rfl]
  · rw [List.append_assoc]
    exact List.take_left' rfl
  · have hdrop : (hexToBytes BUY_DISCRIM_HEX ++ i64leBytes a ++ i64leBytes s).drop 8 =
        i64leBytes a ++ i64leBytes s := by
      rw [List.append_assoc]
      exact List.drop_left' rfl
    rw [hdrop, List.take_left' (length_i64leBytes a)]
    exact decodeI64LE_i64leBytes a ha1 ha
  · have hl : (hexToBytes BUY_DISCRIM_HEX ++ i64leBytes a).length = 16 := by
      simp [length_i64leBytes, show (hexToBytes BUY_DISCRIM_HEX).length = 8 from rfl]
    have hdrop : (hexToBytes BUY_DISCRIM_HEX ++ i64leBytes a ++ i64leBytes s).drop 16 =
        i64leBytes s := by
      rw [← hl]
      exact List.drop_left' rfl
    rw [hdrop]
    exact decodeI64LE_i64leBytes s hs0 hs

/-- C1 witness: at `amount_native = 10000000` and sentinel `-1` the
assembled buffer exists, decodes back, and its hex rendering is the
discriminator hex followed by `8096980000000000` and `ffffffffffffffff`. -/
theorem executePumpSwap_buy_buffer_witness :
    assembleBuyData 10000000 (-1) =
        some (hexToBytes "66063d1201daebea8096980000000000ffffffffffffffff") ∧
      (hexToBytes "66063d1201daebea8096980000000000ffffffffffffffff").length = 24 ∧
      decodeI64LE (((hexToBytes
        "66063d1201daebea8096980000000000ffffffffffffffff").drop 8).take 8) =
        10000000 ∧
      decodeI64LE ((hexToBytes
        "66063d1201daebea8096980000000000ffffffffffffffff").drop 16) = -1 ∧
      bytesToHex (hexToBytes "66063d1201daebea8096980000000000ffffffffffffffff") =
        "66063d1201daebea8096980000000000ffffffffffffffff" := by
  obtain ⟨b, hb, hlen, _, hdec1, hdec2⟩ :=
    executePumpSwap_buy_buffer 10000000 (-1) (by norm_num) (by norm_num)
      (by norm_num) (by norm_num)
  have hr : assembleBuyData 10000000 (-1) =
      some (hexToBytes "66063d1201daebea8096980000000000ffffffffffffffff") := rfl
  have hbe : b = hexToBytes "66063d1201daebea8096980000000000ffffffffffffffff" :=
    Option.some_injective _ (hb.symm.trans hr)
  subst hbe
  exact ⟨hr, hlen, hdec1, hdec2, rfl⟩

/-! ## C3 — shape of the submitted transaction -/

/-- C3: every transaction the snipe executor submits contains at most one
"create associated token account" instruction and exactly one launchpad-buy
instruction, and the ATA-create instruction is included iff
`getAccountInfo(user_ata)` returned absent at build time. -/
theorem executePumpSwap_tx_shape (c : SwapCtx) (lamportsIn : Int)
    (info : Option AccountResp) (tx : List Instr)
    (h : buildPumpSwapTx c lamportsIn info = some tx) :
    tx.countP isAtaCreateIx ≤ 1 ∧ tx.countP isBuyIx = 1 ∧
      ((∃ ix ∈ tx, isAtaCreateIx ix = true) ↔ info = none) := by
  simp only [buildPumpSwapTx, Option.map_eq_some'] at h
  obtain ⟨data, -, hdata⟩ := h
  have hAtaT : ∀ p a o m,
      isAtaCreateIx (createAssociatedTokenAccountInstruction p a o m) = true :=
    fun _ _ _ _ => rfl
  have hAtaF : ∀ ks d, isAtaCreateIx ⟨PUMP_PROGRAM_ID, ks, d⟩ = false :=
    fun _ _ => rfl
  have hBuyT : ∀ ks d, isBuyIx ⟨PUMP_PROGRAM_ID, ks, d⟩ = true := fun _ _ => rfl
  have hBuyF : ∀ p a o m,
      isBuyIx (createAssociatedTokenAccountInstruction p a o m) = false :=
    fun _ _ _ _ => rfl
  cases info with
  | none =>
    subst hdata
    refine ⟨?_, ?_, ?_⟩
    · simp [getOrCreateATAIx, List.countP_cons, List.countP_nil, hAtaT, hAtaF]
    · simp [getOrCreateATAIx, List.countP_cons, List.countP_nil, hBuyT, hBuyF]
    · simp [getOrCreateATAIx, hAtaT]
  | some v =>
    subst hdata
    refine ⟨?_, ?_, ?_⟩
    · simp [getOrCreateATAIx, List.countP_cons, List.countP_nil, hAtaF]
    · simp [getOrCreateATAIx, List.countP_cons, List.countP_nil, hBuyT]
    · simp [getOrCreateATAIx, hAtaF]

/-- C3 witness: with the user ATA reported absent, the concrete built
transaction holds one ATA-create and one buy instruction. -/
theorem executePumpSwap_tx_shape_witness :
    ((buildPumpSwapTx swapCtxStub 1 none).getD []).countP isAtaCreateIx ≤ 1 ∧
      ((buildPumpSwapTx swapCtxStub 1 none).getD []).countP isBuyIx = 1 ∧
      ((∃ ix ∈ (buildPumpSwapTx swapCtxStub 1 none).getD [],
          isAtaCreateIx ix = true) ↔ (none : Option AccountResp) = none) :=
  executePumpSwap_tx_shape swapCtxStub 1 none _ rfl

/-! ## C4 — the backoff runner's retry policy -/

/-- C4 (counterexample): an error whose message is `timeout` — retriable
according to the claim — is propagated immediately by `withBackoff` after a
single call, with no retry. -/
theorem withBackoff_timeout_not_retried :
    (withBackoff timeoutThenOk zeroJitter 5 "rpc").result = Except.error "timeout" ∧
      (withBackoff timeoutThenOk zeroJitter 5 "rpc").calls = 1 ∧
      claimRetriable "timeout" = true :=
  ⟨rfl, rfl, rfl⟩

/-- Every wait performed by the retry loop is the current base delay plus
the jitter of its attempt, the base delay doubling each retry. -/
theorem withBackoffAux_waits_shape {α : Type} (fn : Nat → JsOutcome α)
    (jitter : Nat → ℚ) (fnName : String) :
    ∀ (rem i : Nat) (delay : ℚ) (w : ℚ),
      w ∈ (withBackoffAux fn jitter fnName rem i delay).waits →
      ∃ k, w = delay * 2 ^ k + jitter (i + k) := by
  intro rem
  induction rem with
  | zero =>
    intro i delay w hw
    simp [withBackoffAux] at hw
  | succ rem ih =>
    intro i delay w hw
    cases hfn : fn i with
    | ok v =>
      simp only [withBackoffAux, hfn] at hw
      simp at hw
    | err m =>
      simp only [withBackoffAux, hfn] at hw
      by_cases h429 : strHasSub "429" m = true
      · rw [if_pos h429] at hw
        simp only [List.mem_cons] at hw
        cases hw with
        | inl he =>
          exact ⟨0, by simpa using he⟩
        | inr hm =>
          obtain ⟨k, hk⟩ := ih (i + 1) (2 * delay) w hm
          refine ⟨k + 1, ?_⟩
          rw [hk]
          ring_nf
      · rw [if_neg h429] at hw
        simp at hw

/-- When every attempt fails rate-limited, the loop runs to exhaustion:
`rem` calls, doubling waits, and the max-retries error. -/
theorem withBackoffAux_all429 {α : Type} (fn : Nat → JsOutcome α)
    (jitter : Nat → ℚ) (fnName : String) :
    ∀ (rem i : Nat) (delay : ℚ),
      (∀ k, k < rem → ∃ m, fn (i + k) = .err m ∧ strHasSub "429" m = true) →
      withBackoffAux fn jitter fnName rem i delay =
        ⟨.error ("[" ++ fnName ++ "] Max retries reached."), rem,
          (List.range rem).map fun k => delay * 2 ^ k + jitter (i + k)⟩ := by
  intro rem
  induction rem with
  | zero =>
    intro i delay _
    rfl
  | succ rem ih =>
    intro i delay hall
    obtain ⟨m, hm, h429⟩ := hall 0 (Nat.succ_pos rem)
    rw [Nat.add_zero] at hm
    have hrec := ih (i + 1) (2 * delay) fun k hk => by
      obtain ⟨m', hm', h'⟩ := hall (k + 1) (by omega)
      exact ⟨m', by rwa [show i + 1 + k = i + (k + 1) by omega], h'⟩
    simp only [withBackoffAux, hm, if_pos h429, hrec, BackoffRun.mk.injEq,
      true_and]
    rw [List.range_succ_eq_map, List.map_cons, List.map_map]
    refine congrArg₂ _ (by norm_num) ?_
    refine List.map_congr_left fun k _ => ?_
    simp only [Function.comp]
    rw [show i + 1 + k = i + (k + 1) from by omega, pow_succ]
    ring

/-- C4 (amended): the backoff runner retries exactly those errors whose
message contains `'429'`, waiting the current base delay (500 ms initially,
doubling per attempt) plus the attempt's jitter; every other error —
including plain `Too Many Requests`, `timeout` and `gateway` messages —
propagates immediately after a single call; after `max_attempts` retriable
failures it fails with the max-retries error; and with jitter in
`[0, 150)` every wait lies in `[500·2^i, 500·2^i + 150)`. -/
theorem withBackoff_policy {α : Type} (fn : Nat → JsOutcome α) (jitter : Nat → ℚ)
    (maxRetries : Nat) (fnName : String) :
    (∀ v, fn 0 = .ok v → 0 < maxRetries →
      withBackoff fn jitter maxRetries fnName = ⟨.ok v, 1, []⟩) ∧
    (∀ m, fn 0 = .err m → strHasSub "429" m = false → 0 < maxRetries →
      withBackoff fn jitter maxRetries fnName = ⟨.error m, 1, []⟩) ∧
    ((∀ i, i < maxRetries → ∃ m, fn i = .err m ∧ strHasSub "429" m = true) →
      withBackoff fn jitter maxRetries fnName =
        ⟨.error ("[" ++ fnName ++ "] Max retries reached."), maxRetries,
          (List.range maxRetries).map fun i => 500 * 2 ^ i + jitter i⟩) ∧
    ((∀ i, 0 ≤ jitter i ∧ jitter i < 150) →
      ∀ w ∈ (withBackoff fn jitter maxRetries fnName).waits,
        ∃ i, w = 500 * 2 ^ i + jitter i ∧ 500 * 2 ^ i ≤ w ∧ w < 500 * 2 ^ i + 150) := by
  refine ⟨?_, ?_, ?_, ?_⟩
  · intro v hv hpos
    obtain ⟨rem, hrem⟩ : ∃ rem, maxRetries = rem + 1 :=
      ⟨maxRetries - 1, by omega⟩
    rw [hrem]
    simp [withBackoff, withBackoffAux, hv]
  · intro m hm h429 hpos
    obtain ⟨rem, hrem⟩ : ∃ rem, maxRetries = rem + 1 :=
      ⟨maxRetries - 1, by omega⟩
    rw [hrem]
    simp [withBackoff, withBackoffAux, hm, h429]
  · intro hall
    unfold withBackoff
    rw [withBackoffAux_all429 fn jitter fnName maxRetries 0 500
      (fun k hk => by simpa using hall k hk)]
    simp
  · intro hj w hw
    obtain ⟨k, hk⟩ := withBackoffAux_waits_shape fn jitter fnName maxRetries 0 500 w hw
    rw [Nat.zero_add] at hk
    refine ⟨k, hk, ?_, ?_⟩
    · rw [hk]
      have := (hj k).1
      linarith
    · rw [hk]
      have := (hj k).2
      linarith

/-- C4 witness: a run in which every attempt fails with a `429` message
exhausts its three attempts with waits 500, 1000 and 2000 ms, and a run
whose first attempt fails with `timeout` stops after one call. -/
theorem withBackoff_policy_witness :
    withBackoff always429 zeroJitter 3 "rpc" =
        ⟨.error "[rpc] Max retries reached.", 3, [500, 1000, 2000]⟩ ∧
      withBackoff timeoutThenOk zeroJitter 5 "probe" =
        ⟨.error "timeout", 1, []⟩ := by
  constructor
  · have h := (withBackoff_policy always429 zeroJitter 3 "rpc").2.2.1
      (fun i _ => ⟨"429 Too Many Requests", rfl, rfl⟩)
    rw [h]
    simp only [BackoffRun.mk.injEq, true_and]
    refine ⟨rfl, ?_⟩
    simp only [List.range_succ, List.range_zero, zeroJitter, List.map_append,
      List.map_cons, List.map_nil, List.nil_append, List.cons_append]
    norm_num
  · exact (withBackoff_policy timeoutThenOk zeroJitter 5 "probe").2.1
      "timeout" rfl rfl (by norm_num)

/-! ## C7 — signature dedup -/

/-- A dedup entry younger than 60 s survives any run of handler and sweep
events occurring within its lifetime. -/
theorem runDedup_preserves (sig : String) (t0 : Nat) :
    ∀ (mid : List DedupEvent) (m : SigMap), (sig, t0) ∈ m →
      (∀ e ∈ mid, e.time ≤ t0 + 60000) → (sig, t0) ∈ runDedup m mid := by
  intro mid
  induction mid with
  | nil =>
    intro m hm _
    exact hm
  | cons e rest ih =>
    intro m hm hall
    have hrest : ∀ e' ∈ rest, e'.time ≤ t0 + 60000 :=
      fun e' he' => hall e' (List.mem_cons_of_mem _ he')
    cases e with
    | msg s t =>
      simp only [runDedup]
      refine ih _ ?_ hrest
      unfold handleMsg
      by_cases h : sigHas m s = true
      · rw [if_pos h]
        exact hm
      · rw [if_neg h]
        exact List.mem_cons_of_mem _ hm
    | sweep t =>
      simp only [runDedup]
      refine ih _ ?_ hrest
      have htime : t ≤ t0 + 60000 := hall (.sweep t) (List.mem_cons_self _ _)
      refine List.mem_filter.mpr ⟨hm, ?_⟩
      simp only [Bool.not_eq_eq_eq_not, Bool.not_true, decide_eq_false_iff_not,
        Nat.not_lt]
      omega

/-- A message whose signature is already in the map is dropped. -/
theorem handleMsg_dropped (m : SigMap) (sig : String) (t : Nat)
    (h : sigHas m sig = true) : (handleMsg m sig t).2 = false := by
  simp [handleMsg, h]

/-- Membership makes `sigHas` true. -/
theorem sigHas_of_mem (m : SigMap) (sig : String) (ts : Nat) (h : (sig, ts) ∈ m) :
    sigHas m sig = true :=
  List.any_eq_true.mpr ⟨(sig, ts), h, by simp⟩

/-- C7: a signature first observed (and processed) at `t0` over a map not
yet containing it is dropped when observed again at any `t1 ≤ t0 + 60 s`,
whatever handler and sweep events happen in between within that window; and
the periodic sweep deletes an entry exactly when it is older than 60 s. -/
theorem dedup_processes_once (m0 : SigMap) (mid : List DedupEvent) (sig : String)
    (t0 t1 : Nat) (h0 : sigHas m0 sig = false)
    (hmid : ∀ e ∈ mid, e.time ≤ t0 + 60000) (_ht : t1 ≤ t0 + 60000) :
    (handleMsg m0 sig t0).2 = true ∧
      (handleMsg (runDedup (handleMsg m0 sig t0).1 mid) sig t1).2 = false ∧
      ∀ (m : SigMap) (s : String) (ts now : Nat),
        ((s, ts) ∈ sweepMap m now ↔ (s, ts) ∈ m ∧ now - ts ≤ 60000) := by
  refine ⟨?_, ?_, ?_⟩
  · simp [handleMsg, h0]
  · have hm1 : (sig, t0) ∈ (handleMsg m0 sig t0).1 := by
      simp [handleMsg, h0]
    have hmem := runDedup_preserves sig t0 mid _ hm1 hmid
    have hh := sigHas_of_mem _ sig t0 hmem
    exact handleMsg_dropped _ _ _ hh
  · intro m s ts now
    simp only [sweepMap, List.mem_filter, Bool.not_eq_eq_eq_not, Bool.not_true,
      decide_eq_false_iff_not, Nat.not_lt]

/-- C7 witness: signature `sig-A` inserted at 0 ms over the empty map is
processed; after a sweep at 30 s and an unrelated message at 40 s, its
reappearance at 59 s is dropped. -/
theorem dedup_processes_once_witness :
    (handleMsg [] "sig-A" 0).2 = true ∧
      (handleMsg (runDedup (handleMsg [] "sig-A" 0).1 midTraceStub)
        "sig-A" 59000).2 = false :=
  ⟨(dedup_processes_once [] midTraceStub "sig-A" 0 59000 rfl (by decide)
      (by decide)).1,
   (dedup_processes_once [] midTraceStub "sig-A" 0 59000 rfl (by decide)
      (by decide)).2.1⟩

/-! ## C8 — validator caching -/

/-- Results produced over a cache agreeing with the RPC agree with the RPC. -/
theorem runValidations_results (rpc : String → AccountResp) :
    ∀ (queries : List String) (cache : List (String × Bool)),
      (∀ p ∈ cache, p.2 = isValidResp (rpc p.1)) →
      ∀ p ∈ (runValidations rpc cache queries).1, p.2 = isValidResp (rpc p.1) := by
  intro queries
  induction queries with
  | nil =>
    intro cache _ p hp
    simp [runValidations] at hp
  | cons a rest ih =>
    intro cache hc p hp
    simp only [runValidations, List.mem_cons] at hp
    cases hp with
    | inl hhead =>
      subst hhead
      unfold validateMintCandidate
      cases hg : cacheGet cache a with
      | none => rfl
      | some b =>
        simp only [hg]
        obtain ⟨q, hq, hqb⟩ : ∃ q, (cache.find? fun p => p.1 == a) = some q ∧ q.2 = b := by
          unfold cacheGet at hg
          cases hfq : cache.find? fun p => p.1 == a with
          | none => rw [hfq] at hg; simp at hg
          | some q => rw [hfq] at hg; exact ⟨q, rfl, by simpa using hg⟩
        have hqm : q ∈ cache := List.mem_of_find?_eq_some hq
        have hqa : q.1 = a := by
          have := List.find?_some hq
          simpa using this
        have := hc q hqm
        rw [hqa] at this
        rw [← hqb, this]
    | inr htail =>
      unfold validateMintCandidate at htail
      cases hg : cacheGet cache a with
      | none =>
        rw [hg] at htail
        refine ih _ ?_ p htail
        intro q hq
        rcases List.mem_cons.mp hq with hq1 | hq2
        · subst hq1
          rfl
        · exact hc q hq2
      | some b =>
        rw [hg] at htail
        exact ih _ hc p htail

/-- The head of a cache shadows later entries with the same key. -/
theorem cacheGet_cons (k : String) (v : Bool) (cache : List (String × Bool))
    (a : String) :
    cacheGet ((k, v) :: cache) a = if k == a then some v else cacheGet cache a := by
  unfold cacheGet
  by_cases h : (k == a) = true
  · simp [List.find?, h]
  · simp only [Bool.not_eq_true] at h
    simp [List.find?, h]

/-- Once an address is cached, later runs never issue an RPC call for it;
an uncached address is fetched at most once. -/
theorem runValidations_rpc_once (rpc : String → AccountResp) :
    ∀ (queries : List String) (cache : List (String × Bool)) (a : String),
      (runValidations rpc cache queries).2.count a ≤
        (if (cacheGet cache a).isNone then 1 else 0) := by
  intro queries
  induction queries with
  | nil =>
    intro cache a
    simp [runValidations]
  | cons q rest ih =>
    intro cache a
    simp only [runValidations]
    unfold validateMintCandidate
    cases hg : cacheGet cache q with
    | some b =>
      simp only [hg, Bool.false_eq_true, if_false, List.nil_append]
      exact le_trans (ih cache a) le_rfl
    | none =>
      simp only [hg, if_true, List.cons_append, List.nil_append]
      rw [List.count_cons]
      by_cases hqa : a = q
      · subst hqa
        have hcons : cacheGet ((a, isValidResp (rpc a)) :: cache) a =
            some (isValidResp (rpc a)) := by
          rw [cacheGet_cons]
          simp
        have htail := ih ((a, isValidResp (rpc a)) :: cache) a
        rw [hcons] at htail
        have htail0 : (runValidations rpc
            ((a, isValidResp (rpc a)) :: cache) rest).2.count a ≤ 0 := by
          simpa using htail
        have hget : (cacheGet cache a).isNone = true := by
          rw [hg]
          rfl
        simp only [beq_self_eq_true, if_true, hget]
        omega
      · have hne : (q == a) = false :=
          beq_eq_false_iff_ne.mpr fun hc => hqa hc.symm
        simp only [hne, Bool.false_eq_true, if_false, Nat.add_zero]
        have hqane : ¬(q == a) = true := by
          intro hc
          have hqa' : q = a := by simpa using hc
          exact hqa hqa'.symm
        have hcons : cacheGet ((q, isValidResp (rpc q)) :: cache) a =
            cacheGet cache a := by
          rw [cacheGet_cons, if_neg hqane]
        have htail := ih ((q, isValidResp (rpc q)) :: cache) a
        rw [hcons] at htail
        exact htail

/-- C8: over a sequential run of `validateMintCandidate` calls starting from
the empty cache, each address triggers at most one `getAccountInfo` RPC
call, and every returned boolean equals the validity bit computed from that
address's RPC response (so later calls return the first call's cached
result unchanged). -/
theorem validateMintCandidate_cached (rpc : String → AccountResp)
    (queries : List String) (a : String) :
    (runValidations rpc [] queries).2.count a ≤ 1 ∧
      ∀ p ∈ (runValidations rpc [] queries).1, p.2 = isValidResp (rpc p.1) := by
  constructor
  · have h := runValidations_rpc_once rpc queries [] a
    simpa [cacheGet] using h
  · exact runValidations_results rpc queries [] (by simp)

/-- C8 witness: over the concrete stubbed RPC and the query list
`[Mint111, Mint111, Other22, Mint111]`, the RPC is called at most once for
`Mint111`, and the result recorded for it is the stub's validity bit. -/
theorem validateMintCandidate_cached_witness :
    (runValidations rpcStub [] queriesStub).2.count "Mint111" ≤ 1 ∧
      ("Mint111", true).2 = isValidResp (rpcStub "Mint111") :=
  ⟨(validateMintCandidate_cached rpcStub queriesStub "Mint111").1,
   (validateMintCandidate_cached rpcStub queriesStub "Mint111").2
     ("Mint111", true) (by decide)⟩

/-! ## C6 — fingerprint matching -/

/-- Acceptance of one fingerprint unfolds to its three gates. -/
theorem fpAccepts_iff (fp : Fingerprint) (normalized : List (Option String))
    (logText programId : String) :
    fpAccepts fp normalized logText programId = true ↔
      fpProgramMatched fp logText programId = true ∧
      fp.minScore ≤ (fpMatchCount fp normalized logText : ℚ) +
        (if fpProgramMatched fp logText programId then 1 else 0) ∧
      fpPasses fp (fpMatchCount fp normalized logText)
        (fpProgramMatched fp logText programId) = true := by
  unfold fpAccepts
  generalize fpProgramMatched fp logText programId = pm
  generalize fpMatchCount fp normalized logText = mc
  cases pm
  · simp
  · by_cases hs : ((mc : ℚ) + if true = true then 1 else 0) < fp.minScore
    · rw [if_pos hs]
      simp only [Bool.false_eq_true, false_iff]
      rintro ⟨-, hge, -⟩
      exact absurd hs (not_lt.mpr hge)
    · rw [if_neg hs]
      simp only [Bool.not_true, Bool.false_eq_true, if_false]
      exact ⟨fun h => ⟨by trivial, not_lt.mp hs, h⟩, fun h => h.2.2⟩

/-- C6: the matcher returns a result only for the first fingerprint, in
configuration order, that is accepted; any result presupposes a matched
program and `match_count + 1 ≥ min_score`; and, the two gates granted, a
`FUZZY` fingerprint is accepted exactly when `match_count` reaches half its
required instructions rounded up, an `AND` fingerprint exactly when every
required instruction is present. -/
theorem matchFingerprint_semantics (fps : List (String × Fingerprint))
    (normalized : List (Option String)) (logText programId : String) :
    (∀ r, matchFingerprintList fps normalized logText programId = some r →
      ∃ pre tag fp post,
        fps = pre ++ (tag, fp) :: post ∧
        (∀ q ∈ pre, fpAccepts q.2 normalized logText programId = false) ∧
        fpAccepts fp normalized logText programId = true ∧
        r = ⟨tag, fp.confidence,
          (fpMatchCount fp normalized logText : ℚ) +
            (if fpProgramMatched fp logText programId then 1 else 0)⟩) ∧
    ((∃ q ∈ fps, fpAccepts q.2 normalized logText programId = true) →
      ∃ r, matchFingerprintList fps normalized logText programId = some r) ∧
    (∀ fp : Fingerprint, fpAccepts fp normalized logText programId = true →
      fpProgramMatched fp logText programId = true ∧
      fp.minScore ≤ (fpMatchCount fp normalized logText : ℚ) + 1) ∧
    (∀ fp : Fingerprint, fp.logic = "FUZZY" →
      (fpAccepts fp normalized logText programId = true ↔
        fpProgramMatched fp logText programId = true ∧
        fp.minScore ≤ (fpMatchCount fp normalized logText : ℚ) + 1 ∧
        jsCeilHalf (fp.instructions.map toLowerStr).length ≤
          fpMatchCount fp normalized logText)) ∧
    (∀ fp : Fingerprint, fp.logic = "AND" →
      (fpAccepts fp normalized logText programId = true ↔
        fpProgramMatched fp logText programId = true ∧
        fp.minScore ≤ (fpMatchCount fp normalized logText : ℚ) + 1 ∧
        ∀ instr ∈ fp.instructions.map toLowerStr,
          (normalized.contains (some instr) || strHasSub instr logText) = true)) := by
  refine ⟨?_, ?_, ?_, ?_, ?_⟩
  · induction fps with
    | nil =>
      intro r hr
      simp [matchFingerprintList] at hr
    | cons q rest ih =>
      intro r hr
      obtain ⟨tag, fp⟩ := q
      by_cases hacc : fpAccepts fp normalized logText programId = true
      · refine ⟨[], tag, fp, rest, by simp, by simp, hacc, ?_⟩
        simp only [matchFingerprintList, hacc, if_true] at hr
        exact (Option.some_injective _ hr).symm
      · simp only [Bool.not_eq_true] at hacc
        simp only [matchFingerprintList, hacc, Bool.false_eq_true, if_false] at hr
        obtain ⟨pre, tag', fp', post, hsplit, hpre, hacc', hres⟩ := ih r hr
        refine ⟨(tag, fp) :: pre, tag', fp', post, by simp [hsplit], ?_, hacc', hres⟩
        intro p hp
        rcases List.mem_cons.mp hp with h1 | h2
        · subst h1
          exact hacc
        · exact hpre p h2
  · induction fps with
    | nil =>
      rintro ⟨q, hq, -⟩
      simp at hq
    | cons q rest ih =>
      rintro ⟨p, hp, haccp⟩
      obtain ⟨tag, fp⟩ := q
      by_cases hacc : fpAccepts fp normalized logText programId = true
      · exact ⟨⟨tag, fp.confidence,
          (fpMatchCount fp normalized logText : ℚ) +
            (if fpProgramMatched fp logText programId then 1 else 0)⟩, by
          simp only [matchFingerprintList, hacc, if_true]⟩
      · simp only [Bool.not_eq_true] at hacc
        rcases List.mem_cons.mp hp with h1 | h2
        · subst h1
          rw [hacc] at haccp
          exact absurd haccp (by simp)
        · obtain ⟨r, hr⟩ := ih ⟨p, h2, haccp⟩
          exact ⟨r, by
            simp only [matchFingerprintList, hacc, Bool.false_eq_true, if_false]
            exact hr⟩
  · intro fp hacc
    obtain ⟨hpm, hge, -⟩ := (fpAccepts_iff fp normalized logText programId).mp hacc
    rw [hpm] at hge
    simpa using ⟨hpm, hge⟩
  · intro fp hl
    rw [fpAccepts_iff]
    have hAnd : (fp.logic == "AND") = false := by
      rw [hl]
      rfl
    have hOr : (fp.logic == "OR") = false := by
      rw [hl]
      rfl
    have hFuzzy : (fp.logic == "FUZZY") = true := by
      rw [hl]
      rfl
    constructor
    · rintro ⟨hpm, hge, hpass⟩
      rw [hpm] at hge
      refine ⟨hpm, hge, ?_⟩
      unfold fpPasses at hpass
      rw [hAnd, hOr, hFuzzy] at hpass
      simpa using hpass
    · rintro ⟨hpm, hge, hceil⟩
      rw [hpm]
      refine ⟨rfl, by simpa using hge, ?_⟩
      unfold fpPasses
      rw [hAnd, hOr, hFuzzy]
      simpa using hceil
  · intro fp hl
    rw [fpAccepts_iff]
    have hAnd : (fp.logic == "AND") = true := by
      rw [hl]
      rfl
    have hOr : (fp.logic == "OR") = false := by
      rw [hl]
      rfl
    have hFuzzy : (fp.logic == "FUZZY") = false := by
      rw [hl]
      rfl
    have hcount : (fpMatchCount fp normalized logText =
        (fp.instructions.map toLowerStr).length) ↔
        ∀ instr ∈ fp.instructions.map toLowerStr,
          (normalized.contains (some instr) || strHasSub instr logText) = true := by
      unfold fpMatchCount
      exact List.filter_length_eq_length
    constructor
    · rintro ⟨hpm, hge, hpass⟩
      rw [hpm] at hge
      refine ⟨hpm, hge, ?_⟩
      unfold fpPasses at hpass
      rw [hAnd, hOr, hFuzzy] at hpass
      simp only [Bool.true_and, Bool.false_and, Bool.or_false, Bool.false_or,
        Bool.and_eq_true, beq_iff_eq] at hpass
      exact hcount.mp (by
        have := hpass.1
        simpa using this)
    · rintro ⟨hpm, hge, hall⟩
      rw [hpm]
      refine ⟨rfl, by simpa using hge, ?_⟩
      unfold fpPasses
      rw [hAnd, hOr, hFuzzy]
      have := hcount.mpr hall
      simp [this, hpm]

/-- C6 witness: the `meteora_initPool` fingerprint (`FUZZY`, four required
instructions) over a concrete log text containing three of them and the
required program id: acceptance is equivalent to the claim's conditions,
and acceptance implies the program gate and `match_count + 1 ≥ min_score`. -/
theorem matchFingerprint_semantics_witness :
    (fpAccepts meteoraFp [] meteoraLogText "unknown" = true ↔
      fpProgramMatched meteoraFp meteoraLogText "unknown" = true ∧
      meteoraFp.minScore ≤ (fpMatchCount meteoraFp [] meteoraLogText : ℚ) + 1 ∧
      jsCeilHalf (meteoraFp.instructions.map toLowerStr).length ≤
        fpMatchCount meteoraFp [] meteoraLogText) ∧
    (fpProgramMatched meteoraFp meteoraLogText "unknown" = true ∧
      meteoraFp.minScore ≤ (fpMatchCount meteoraFp [] meteoraLogText : ℚ) + 1) := by
  have hiff :=
    (matchFingerprint_semantics FINGERPRINTS [] meteoraLogText "unknown").2.2.2.1
      meteoraFp rfl
  have hmc : fpMatchCount meteoraFp [] meteoraLogText = 3 := rfl
  have hpm : fpProgramMatched meteoraFp meteoraLogText "unknown" = true := rfl
  have hms : meteoraFp.minScore = 15/10 := rfl
  have hacc : fpAccepts meteoraFp [] meteoraLogText "unknown" = true := by
    rw [hiff]
    refine ⟨hpm, ?_, ?_⟩
    · rw [hmc, hms]
      norm_num
    · rw [hmc]
      decide
  exact ⟨hiff,
    (matchFingerprint_semantics FINGERPRINTS [] meteoraLogText "unknown").2.2.1
      meteoraFp hacc⟩

/-! ## C2 — the bonding-curve launch decoder -/

/-- Substring occurrence and substring-index search agree. -/
theorem hasSub_iff_findSubIdx (needle : List Char) :
    ∀ hay : List Char, hasSub needle hay = (findSubIdx needle hay).isSome := by
  intro hay
  induction hay with
  | nil =>
    by_cases h : needle.isEmpty
    · simp [hasSub, findSubIdx, h]
    · simp only [Bool.not_eq_true] at h
      simp [hasSub, findSubIdx, h]
  | cons c rest ih =>
    by_cases h : headMatches needle (c :: rest) = true
    · simp [hasSub, findSubIdx, h]
    · simp only [Bool.not_eq_true] at h
      simp [hasSub, findSubIdx, h, ih]

/-- A line with a decodable frame contains the `Program data:` marker. -/
theorem claimFramePayload_marker (l : String) (b : List Nat)
    (h : claimFramePayload l = some b) :
    strHasSub programDataMarker (toLowerStr l) = true := by
  unfold claimFramePayload at h
  cases hlp : linePayload l with
  | none =>
    rw [hlp] at h
    simp at h
  | some enc =>
    unfold linePayload at hlp
    cases hf : findSubIdx programDataMarker.data (l.data.map lowerChar) with
    | none =>
      rw [hf] at hlp
      simp at hlp
    | some i =>
      unfold strHasSub
      rw [hasSub_iff_findSubIdx]
      have hdata : (toLowerStr l).data = l.data.map lowerChar := rfl
      rw [hdata, hf]
      rfl

/-- Restricting to marker lines does not change the extracted frames. -/
theorem filterMap_frames_filter (logs : List String) :
    ((logs.filter fun l => strHasSub programDataMarker (toLowerStr l)).filterMap
      claimFramePayload) = logs.filterMap claimFramePayload := by
  induction logs with
  | nil => rfl
  | cons l rest ih =>
    cases hf : claimFramePayload l with
    | none =>
      by_cases hp : strHasSub programDataMarker (toLowerStr l) = true
      · simp [List.filter_cons, hp, List.filterMap_cons, hf, ih]
      · simp only [Bool.not_eq_true] at hp
        simp [List.filter_cons, hp, List.filterMap_cons, hf, ih]
    | some b =>
      have hp := claimFramePayload_marker l b hf
      simp [List.filter_cons, hp, List.filterMap_cons, hf, ih]

/-- The line loop is the first-frame search over the decodable frames. -/
theorem scanLines_eq (ls : List String) :
    scanLines ls = (ls.filterMap claimFramePayload).findSome? scanBuffer := by
  induction ls with
  | nil => rfl
  | cons line rest ih =>
    cases hlp : linePayload line with
    | none =>
      have hcf : claimFramePayload line = none := by
        unfold claimFramePayload
        rw [hlp]
        rfl
      simp [scanLines, hlp, List.filterMap_cons, hcf, ih]
    | some enc =>
      by_cases hb : isB64 enc = true
      · have hcf : claimFramePayload line = some (b64decode enc) := by
          unfold claimFramePayload
          rw [hlp]
          simp [hb]
        simp only [scanLines, hlp, hb, if_true, List.filterMap_cons, hcf,
          List.findSome?_cons]
        cases scanBuffer (b64decode enc) with
        | none => simp [ih]
        | some r => simp
      · simp only [Bool.not_eq_true] at hb
        have hcf : claimFramePayload line = none := by
          unfold claimFramePayload
          rw [hlp]
          simp [hb]
        simp [scanLines, hlp, hb, List.filterMap_cons, hcf, ih]

/-- The fuel-indexed window loop equals the window search over the
remaining offsets. -/
theorem windowLoopAux_eq (buf : List Nat) (h32 : 32 ≤ buf.length) :
    ∀ (fuel offset : Nat), buf.length + 1 ≤ offset + fuel →
      windowLoopAux buf fuel offset =
        (List.range' offset (buf.length - 32 + 1 - offset)).findSome?
          (windowStep buf) := by
  intro fuel
  induction fuel with
  | zero =>
    intro offset hfuel
    have hz : buf.length - 32 + 1 - offset = 0 := by omega
    rw [hz]
    rfl
  | succ fuel ih =>
    intro offset hfuel
    by_cases hoff : offset + 32 ≤ buf.length
    · have hslice : ((buf.drop offset).take 32).length = 32 := by
        simp only [List.length_take, List.length_drop]
        omega
      have hpk : pkToBase58 ((buf.drop offset).take 32) =
          some (base58encode ((buf.drop offset).take 32)) := by
        unfold pkToBase58
        rw [if_pos (by simpa using hslice)]
      have hcount : buf.length - 32 + 1 - offset =
          (buf.length - 32 + 1 - (offset + 1)) + 1 := by omega
      rw [hcount]
      have hrange : List.range' offset ((buf.length - 32 + 1 - (offset + 1)) + 1) =
          offset :: List.range' (offset + 1) (buf.length - 32 + 1 - (offset + 1)) :=
        rfl
      rw [hrange, List.findSome?_cons]
      simp only [windowLoopAux, hoff, if_pos, hpk]
      by_cases hsfx : pumpSuffix (base58encode ((buf.drop offset).take 32)) = true
      · simp [windowStep, hsfx]
      · simp only [Bool.not_eq_true] at hsfx
        simp only [windowStep, hsfx, Bool.false_eq_true, if_false]
        exact ih (offset + 1) (by omega)
    · have hz : buf.length - 32 + 1 - offset = 0 := by omega
      rw [hz]
      simp [windowLoopAux, hoff]

/-- The per-buffer scan of `decodePumpFunCreate` equals the claim's
fixed-offset-then-window scan. -/
theorem scanBuffer_eq_claim (buf : List Nat) :
    scanBuffer buf = claimScanBuffer buf := by
  by_cases h32 : 32 ≤ buf.length
  · have hwin : windowLoop buf =
        (List.range (buf.length - 32 + 1)).findSome? (windowStep buf) := by
      unfold windowLoop
      rw [windowLoopAux_eq buf h32 (buf.length + 1) 0 (by omega),
        Nat.sub_zero, List.range_eq_range']
    by_cases h40 : 40 ≤ buf.length
    · have hslice : ((buf.drop 8).take 32).length = 32 := by
        simp only [List.length_take, List.length_drop]
        omega
      have hpk : pkToBase58 ((buf.drop 8).take 32) =
          some (base58encode ((buf.drop 8).take 32)) := by
        unfold pkToBase58
        rw [if_pos (by simpa using hslice)]
      by_cases hsfx : pumpSuffix (base58encode ((buf.drop 8).take 32)) = true
      · unfold scanBuffer fixedTry claimScanBuffer
        rw [hpk]
        simp [h32, h40, hsfx]
      · simp only [Bool.not_eq_true] at hsfx
        unfold scanBuffer fixedTry claimScanBuffer
        rw [hpk]
        simp [h32, h40, hsfx, hwin]
    · have hslice : ((buf.drop 8).take 32).length ≠ 32 := by
        simp only [List.length_take, List.length_drop]
        omega
      have hpk : pkToBase58 ((buf.drop 8).take 32) = none := by
        unfold pkToBase58
        rw [if_neg (by simpa using hslice)]
      unfold scanBuffer fixedTry claimScanBuffer
      rw [hpk]
      simp [h32, h40, hwin]
  · have hslice : ((buf.drop 8).take 32).length ≠ 32 := by
      simp only [List.length_take, List.length_drop]
      omega
    have hpk : pkToBase58 ((buf.drop 8).take 32) = none := by
      unfold pkToBase58
      rw [if_neg (by simpa using hslice)]
    unfold scanBuffer fixedTry claimScanBuffer windowLoop
    rw [hpk]
    have hnone : windowLoopAux buf (buf.length + 1) 0 = none := by
      simp only [windowLoopAux]
      rw [if_neg (by omega)]
    simp [h32, hnone]

/-- C2: `decodePumpFunCreate` behaves exactly as claimed — for each
`Program data:` line, in order, whose payload is well-formed base64, it
tries the 32 bytes at fixed offset 8 first (when the buffer is long
enough), returning that address with confidence 0.94 if its base58 form
ends in `pump` case-insensitively, otherwise slides a 32-byte window from
offset 0 to `len − 32` in steps of 1 and returns the first address passing
the same test; it returns no mint when no frame yields a match. -/
theorem decodePumpFunCreate_eq_claim (logs : List String) :
    decodePumpFunCreate logs = claimDecodePumpFunCreate logs := by
  have hfun : scanBuffer = claimScanBuffer := funext scanBuffer_eq_claim
  unfold decodePumpFunCreate claimDecodePumpFunCreate
  rw [← hfun, ← filterMap_frames_filter, ← scanLines_eq]
  by_cases h : (logs.filter fun l =>
      strHasSub programDataMarker (toLowerStr l)).isEmpty
  · rw [if_pos h]
    rw [List.isEmpty_iff] at h
    rw [h]
    rfl
  · rw [if_neg h]

end Snipe
